import Mathlib

/-!
Verification of the dendrite storage / sync core against its specification.

Each Go function relevant to the claims is shallowly embedded as an
executable Lean definition.  Database tables become explicit values
(lists of rows, finite maps as functions), SQL statements become pure
functions on those values, and effectful consumer callbacks become
functions from their environment responses (parse results, query
results) to the returned acknowledgement plus the list of performed
actions.  Go int64 columns are modelled as Int: none of the claims is
about overflow behaviour, and the counters involved never approach
2^63 before SQLite itself would fail.
-/

/-! ### Go slices

Go distinguishes a nil slice from an allocated empty slice.  We model a
Go slice as an `Option` of a list: `none` is the nil slice, `some l` an
allocated slice with elements `l`.  `append` on a nil slice allocates.
-/

def GoSlice (α : Type) : Type := Option (List α)

/-- The nil (zero-valued) Go slice, e.g. `var eventIDs []string`. -/
def GoSlice.nilSlice {α : Type} : GoSlice α := none

/-- An allocated Go slice literal such as `[]string\x7b\x7d`. -/
def GoSlice.ofList {α : Type} (l : List α) : GoSlice α := some l

/-- Go `append(s, x)`: appending to a nil slice allocates. -/
def GoSlice.push {α : Type} (s : GoSlice α) (x : α) : GoSlice α :=
  match s with
  | none => some [x]
  | some l => some (l ++ [x])

/-- Append every element of `l` in order, as a Go `for … append` loop does. -/
def GoSlice.pushAll {α : Type} (s : GoSlice α) (l : List α) : GoSlice α :=
  l.foldl GoSlice.push s

/-- The elements of a Go slice; a nil slice has none. -/
def GoSlice.toList {α : Type} (s : GoSlice α) : List α :=
  match s with
  | none => []
  | some l => l

/-- Go `len(s)`. -/
def GoSlice.len {α : Type} (s : GoSlice α) : Nat := s.toList.length

theorem GoSlice.push_toList {α : Type} (s : GoSlice α) (x : α) :
    (s.push x).toList = s.toList ++ [x] := by
  cases s <;> rfl

theorem GoSlice.pushAll_toList {α : Type} (l : List α) :
    ∀ s : GoSlice α, (s.pushAll l).toList = s.toList ++ l := by
  induction l with
  | nil => intro s; simp [GoSlice.pushAll]
  | cons x xs ih =>
      intro s
      show ((s.push x).pushAll xs).toList = s.toList ++ (x :: xs)
      rw [ih, GoSlice.push_toList]
      simp

/-! ### Stream position allocator (syncapi/storage, sqlite3 stream ID table)

The `syncapi_stream_id` table keyed by stream name, with the single
update statement

  UPDATE syncapi_stream_id SET stream_id = stream_id + 1
    WHERE stream_name = $1 RETURNING stream_id

used by `nextPDUID`, `nextReceiptID`, `nextInviteID`,
`nextAccountDataID`, `nextPresenceID`, `nextNotificationID` and
`nextRelationID`.  The table is modelled as a total map from stream
name to the persisted counter; the schema seeds every used name with 0.
-/

def StreamIDTable : Type := String → Int

/-- The statement `increaseStreamIDStmt`: increment the named counter and return the
new value, together with the updated table. -/
def increaseStreamID (tbl : StreamIDTable) (name : String) : Int × StreamIDTable :=
  (tbl name + 1, fun n => if n = name then tbl name + 1 else tbl n)

def nextPDUID (tbl : StreamIDTable) : Int × StreamIDTable :=
  increaseStreamID tbl "global"

def nextReceiptID (tbl : StreamIDTable) : Int × StreamIDTable :=
  increaseStreamID tbl "receipt"

def nextInviteID (tbl : StreamIDTable) : Int × StreamIDTable :=
  increaseStreamID tbl "invite"

def nextAccountDataID (tbl : StreamIDTable) : Int × StreamIDTable :=
  increaseStreamID tbl "accountdata"

def nextPresenceID (tbl : StreamIDTable) : Int × StreamIDTable :=
  increaseStreamID tbl "presence"

def nextNotificationID (tbl : StreamIDTable) : Int × StreamIDTable :=
  increaseStreamID tbl "notification"

def nextRelationID (tbl : StreamIDTable) : Int × StreamIDTable :=
  increaseStreamID tbl "relation"

/-- The position returned by the `(k+1)`-th of a run of successive
serialized calls to the allocator for the stream `name`, starting from
table `tbl`. -/
def streamPosAt (tbl : StreamIDTable) (name : String) : Nat → Int
  | 0 => (increaseStreamID tbl name).1
  | k + 1 => streamPosAt (increaseStreamID tbl name).2 name k

theorem increaseStreamID_state (tbl : StreamIDTable) (name : String) :
    (increaseStreamID tbl name).2 name = tbl name + 1 := by
  simp [increaseStreamID]

theorem streamPosAt_eq (name : String) :
    ∀ (k : Nat) (tbl : StreamIDTable), streamPosAt tbl name k = tbl name + (k + 1) := by
  intro k
  induction k with
  | zero => intro tbl; simp [streamPosAt, increaseStreamID]
  | succ k ih =>
      intro tbl
      show streamPosAt (increaseStreamID tbl name).2 name k = tbl name + (k + 1 + 1)
      rw [ih, increaseStreamID_state]
      ring

/-! ### truncateAuthAndPrevEvents (external/eventutil/events.go) -/

/-- The function `truncateAuthAndPrevEvents` limits the number of events added into
an event as `prev_events` or `auth_events`: auth events are capped at
10, prev events at 20. -/
def truncateAuthAndPrevEvents (auth prev : List String) : List String × List String :=
  let truncAuth := if auth.length > 10 then auth.take 10 else auth
  let truncPrev := if prev.length > 20 then prev.take 20 else prev
  (truncAuth, truncPrev)

/-! ### State snapshot table (roomserver/storage/sqlite3/state_snapshot_table.go)

`InsertState` sorts and deduplicates the state block NID list
(`util.SortAndUnique`), hashes it, and inserts a row; on a conflict on
the `state_snapshot_hash UNIQUE` column it updates `room_nid` and
returns the existing row's `state_snapshot_nid` (INTEGER PRIMARY KEY
AUTOINCREMENT).

Modelled from the spec: `types.StateBlockNIDs.Hash` and
`util.SortAndUnique` are not under src/.  The spec describes the hash
as content addressing of the sorted block-NID list with no collisions
under normal hash assumptions, so the hash is modelled as the canonical
sorted deduplicated list itself, and `util.SortAndUnique` by sorting
followed by deduplication.  A nil Go slice of block NIDs is the empty
list. -/

/-- Sort ascending, then drop duplicates: the canonical form of a
state block NID list. -/
def sortAndUnique (l : List Int) : List Int :=
  (List.insertionSort (· ≤ ·) l).dedup

theorem mem_sortAndUnique (x : Int) (l : List Int) :
    x ∈ sortAndUnique l ↔ x ∈ l := by
  unfold sortAndUnique
  rw [List.mem_dedup]
  exact (List.perm_insertionSort _ l).mem_iff

theorem sortAndUnique_sorted (l : List Int) :
    List.Sorted (· ≤ ·) (sortAndUnique l) :=
  List.Pairwise.sublist (List.dedup_sublist _) (List.sorted_insertionSort _ l)

theorem sortAndUnique_nodup (l : List Int) : (sortAndUnique l).Nodup :=
  List.nodup_dedup _

theorem sortAndUnique_toFinset (l : List Int) :
    (sortAndUnique l).toFinset = l.toFinset := by
  apply Finset.ext
  intro x
  simp only [List.mem_toFinset]
  exact mem_sortAndUnique x l

/-- The canonical form is injective on, and determined by, the set of
elements: two lists have equal canonical forms exactly when they hold
the same set of block NIDs. -/
theorem sortAndUnique_eq_iff (l₁ l₂ : List Int) :
    sortAndUnique l₁ = sortAndUnique l₂ ↔ l₁.toFinset = l₂.toFinset := by
  constructor
  · intro h
    rw [← sortAndUnique_toFinset l₁, ← sortAndUnique_toFinset l₂, h]
  · intro h
    apply List.eq_of_perm_of_sorted _ (sortAndUnique_sorted l₁) (sortAndUnique_sorted l₂)
    apply List.perm_of_nodup_nodup_toFinset_eq (sortAndUnique_nodup l₁) (sortAndUnique_nodup l₂)
    rw [sortAndUnique_toFinset, sortAndUnique_toFinset]
    exact h

/-- One row of `roomserver_state_snapshots`. -/
structure SnapRow where
  nid : Int
  hash : List Int
  roomNID : Int
  blockNIDs : List Int
deriving DecidableEq

/-- The `roomserver_state_snapshots` table together with its
AUTOINCREMENT counter for `state_snapshot_nid`. -/
structure SnapTable where
  rows : List SnapRow
  nextNID : Int
deriving DecidableEq

/-- The `ON CONFLICT (state_snapshot_hash) DO UPDATE SET room_nid=$2`
effect on one row. -/
def updRoom (key : List Int) (room : Int) (q : SnapRow) : SnapRow :=
  if q.hash = key then ⟨q.nid, q.hash, room, q.blockNIDs⟩ else q

/-- The method `stateSnapshotStatements.InsertState`: canonicalise the block NID
list, then insert-or-fetch by hash, returning the snapshot NID and the
updated table. -/
def insertState (st : SnapTable) (roomNID : Int) (stateBlockNIDs : List Int) :
    Int × SnapTable :=
  let key := sortAndUnique stateBlockNIDs
  match st.rows.find? (fun r => decide (r.hash = key)) with
  | some r => (r.nid, ⟨st.rows.map (updRoom key roomNID), st.nextNID⟩)
  | none => (st.nextNID, ⟨st.rows ++ [⟨st.nextNID, key, roomNID, key⟩], st.nextNID + 1⟩)

/-- Invariants the snapshot table maintains: the UNIQUE constraint on
the hash, distinctness of the primary key, and the AUTOINCREMENT
counter strictly above every allocated NID. -/
def SnapTable.wf (st : SnapTable) : Prop :=
  st.rows.Pairwise (fun a b => a.hash ≠ b.hash) ∧
  st.rows.Pairwise (fun a b => a.nid ≠ b.nid) ∧
  ∀ r ∈ st.rows, r.nid < st.nextNID

theorem updRoom_hash (key : List Int) (room : Int) (q : SnapRow) :
    (updRoom key room q).hash = q.hash := by
  unfold updRoom
  split <;> rfl

theorem updRoom_nid (key : List Int) (room : Int) (q : SnapRow) :
    (updRoom key room q).nid = q.nid := by
  unfold updRoom
  split <;> rfl

theorem find?_map_updRoom (key key₂ : List Int) (room : Int) :
    ∀ rows : List SnapRow,
      (rows.map (updRoom key room)).find? (fun r => decide (r.hash = key₂)) =
        (rows.find? (fun r => decide (r.hash = key₂))).map (updRoom key room) := by
  intro rows
  induction rows with
  | nil => rfl
  | cons q qs ih =>
      by_cases h : q.hash = key₂
      · simp [List.find?, updRoom_hash, h]
      · simp [List.find?, updRoom_hash, h, ih]

/-- C2: on a well-formed snapshot table, inserting a block-NID list
and then inserting another returns the identical snapshot NID exactly
when the two lists describe the same set of state block NIDs.  In
particular calling `InsertState` twice with identical inputs returns
the identical snapshot NID both times, and two different block-NID
sets receive different snapshot NIDs. -/
theorem insertState_content_addressed (st : SnapTable) (h : st.wf)
    (room₁ room₂ : Int) (l₁ l₂ : List Int) :
    ((insertState st room₁ l₁).1 =
        (insertState (insertState st room₁ l₁).2 room₂ l₂).1 ↔
      l₁.toFinset = l₂.toFinset) := by
  rw [← sortAndUnique_eq_iff]
  obtain ⟨hhash, hnid, hbound⟩ := h
  cases hf₁ : st.rows.find? (fun r => decide (r.hash = sortAndUnique l₁)) with
  | some r =>
      have hr_mem : r ∈ st.rows := List.mem_of_find?_eq_some hf₁
      have hr_hash : r.hash = sortAndUnique l₁ := by
        have hb := List.find?_some hf₁
        simpa using hb
      cases hf₂ : st.rows.find? (fun r => decide (r.hash = sortAndUnique l₂)) with
      | some q =>
          have hq_mem : q ∈ st.rows := List.mem_of_find?_eq_some hf₂
          have hq_hash : q.hash = sortAndUnique l₂ := by
            have hb := List.find?_some hf₂
            simpa using hb
          simp only [insertState, hf₁, find?_map_updRoom, hf₂, Option.map_some', updRoom_nid]
          constructor
          · intro hne
            by_contra hk
            have hqr : q ≠ r := by
              intro hqr
              apply hk
              rw [← hr_hash, ← hq_hash, hqr]
            exact List.Pairwise.forall (fun a b hab => Ne.symm hab) hnid hr_mem hq_mem
              (Ne.symm hqr) hne
          · intro hk
            have heq : st.rows.find? (fun r => decide (r.hash = sortAndUnique l₁)) = some q := by
              rw [hk]
              exact hf₂
            rw [hf₁] at heq
            cases heq
            rfl
      | none =>
          simp only [insertState, hf₁, find?_map_updRoom, hf₂, Option.map_none']
          constructor
          · intro hle
            exact absurd hle (Int.ne_of_lt (hbound r hr_mem))
          · intro hk
            have heq : st.rows.find? (fun r => decide (r.hash = sortAndUnique l₁)) = none := by
              rw [hk]
              exact hf₂
            rw [hf₁] at heq
            cases heq
  | none =>
      cases hf₂ : st.rows.find? (fun r => decide (r.hash = sortAndUnique l₂)) with
      | some q =>
          have hq_mem : q ∈ st.rows := List.mem_of_find?_eq_some hf₂
          simp only [insertState, hf₁, List.find?_append, hf₂, Option.or_some]
          constructor
          · intro hne
            exact absurd hne.symm (Int.ne_of_lt (hbound q hq_mem))
          · intro hk
            have heq : st.rows.find? (fun r => decide (r.hash = sortAndUnique l₁)) = some q := by
              rw [hk]
              exact hf₂
            rw [hf₁] at heq
            cases heq
      | none =>
          by_cases hk : sortAndUnique l₁ = sortAndUnique l₂
          · simp only [insertState, hf₁, List.find?_append, hf₂, Option.none_or]
            rw [List.find?_cons_of_pos _ (by simp [hk])]
            simpa using hk
          · simp only [insertState, hf₁, List.find?_append, hf₂, Option.none_or]
            rw [List.find?_cons_of_neg _ (by simp [hk]), List.find?_nil]
            constructor
            · intro hne
              simp only [] at hne
              exact absurd hne (by simp)
            · intro hke
              exact absurd hke hk

/-- Witness for C2 at a concrete table: in the empty table, inserting
`[2, 1, 2]` and then `[1, 2]` (the same set of block NIDs) yields the
same snapshot NID. -/
theorem insertState_content_addressed_witness :
    ((insertState ⟨[], 1⟩ 7 [2, 1, 2]).1 =
        (insertState (insertState ⟨[], 1⟩ 7 [2, 1, 2]).2 8 [1, 2]).1 ↔
      ([2, 1, 2] : List Int).toFinset = ([1, 2] : List Int).toFinset) :=
  insertState_content_addressed ⟨[], 1⟩
    ⟨List.Pairwise.nil, List.Pairwise.nil, by simp⟩ 7 8 [2, 1, 2] [1, 2]

/-! ### Room updater (roomserver/storage/shared/room_updater.go)

`RoomUpdater.SetLatestEvents` validates its arguments and only then
updates the rooms table row (latest event NIDs, last event sent,
current state snapshot).

Modelled from the spec: `RoomsTable.UpdateLatestEventNIDs` itself is
not under src/; per the spec's room-metadata description it sets the
room's latest-event-NIDs frontier, last-event-sent and
current-state-snapshot pointer for the given room NID.  The
validation and its placement before the write are taken from
`SetLatestEvents` in src. -/

/-- The room-metadata columns of one `roomserver_rooms` row. -/
structure RoomRow where
  latestEventNIDs : List Int
  lastEventSentNID : Int
  stateSnapshotNID : Int
deriving DecidableEq

/-- The rooms table, as a total map from room NID to its metadata row. -/
def RoomsTable : Type := Int → RoomRow

/-- The type `types.StateAtEventAndReference`, reduced to the field
`SetLatestEvents` reads (`EventNID`). -/
structure StateAtEventAndReference where
  eventNID : Int
deriving DecidableEq

/-- Modelled from the spec: `RoomsTable.UpdateLatestEventNIDs` writes
the frontier, last-sent event and state snapshot pointer of one room. -/
def updateLatestEventNIDs (tbl : RoomsTable) (roomNID : Int)
    (eventNIDs : List Int) (lastEventSentNID stateSnapshotNID : Int) : RoomsTable :=
  fun n => if n = roomNID then ⟨eventNIDs, lastEventSentNID, stateSnapshotNID⟩ else tbl n

/-- The method `RoomUpdater.SetLatestEvents`: reject an empty latest list, a zero
state snapshot NID or a zero last-sent event NID before any write;
otherwise update the rooms table.  The result pairs the returned error
(if any) with the rooms table after the call. -/
def SetLatestEvents (tbl : RoomsTable) (roomNID : Int)
    (latest : List StateAtEventAndReference) (lastEventNIDSent : Int)
    (currentStateSnapshotNID : Int) : Except String Unit × RoomsTable :=
  if latest.length = 0 then
    (Except.error "cannot set latest events with no latest event references", tbl)
  else if currentStateSnapshotNID = 0 then
    (Except.error "cannot set latest events with invalid state snapshot NID", tbl)
  else if lastEventNIDSent = 0 then
    (Except.error "cannot set latest events with invalid latest event NID", tbl)
  else
    let eventNIDs := latest.map (fun s => s.eventNID)
    (Except.ok (),
      updateLatestEventNIDs tbl roomNID eventNIDs lastEventNIDSent currentStateSnapshotNID)

/-- C3: `SetLatestEvents` fails fast with a descriptive error on an
empty latest-events list, a zero state snapshot NID or a zero
last-sent-event NID, leaving every room's stored frontier,
last-sent-event and snapshot pointer exactly as before the call; with
valid arguments it updates the rooms table row for the room. -/
theorem setLatestEvents_validates (tbl : RoomsTable) (roomNID : Int)
    (latest : List StateAtEventAndReference) (lastSent snap : Int) :
    (latest = [] ∨ snap = 0 ∨ lastSent = 0 →
      (∃ msg, (SetLatestEvents tbl roomNID latest lastSent snap).1 = Except.error msg) ∧
        (SetLatestEvents tbl roomNID latest lastSent snap).2 = tbl) ∧
      (latest ≠ [] → snap ≠ 0 → lastSent ≠ 0 →
        SetLatestEvents tbl roomNID latest lastSent snap =
          (Except.ok (), updateLatestEventNIDs tbl roomNID
            (latest.map (fun s => s.eventNID)) lastSent snap)) := by
  constructor
  · intro hbad
    have herr : latest.length = 0 ∨ snap = 0 ∨ lastSent = 0 := by
      rcases hbad with h | h | h
      · exact Or.inl (by simp [h])
      · exact Or.inr (Or.inl h)
      · exact Or.inr (Or.inr h)
    unfold SetLatestEvents
    by_cases hl : latest.length = 0
    · simp [hl]
    · by_cases hs : snap = 0
      · simp [hl, hs]
      · have hle : lastSent = 0 := by tauto
        simp [hl, hs, hle]
  · intro hne hsnap hlast
    unfold SetLatestEvents
    have hl : ¬ latest.length = 0 := by
      simpa [List.length_eq_zero] using hne
    simp only [if_neg hl, if_neg hsnap, if_neg hlast]

/-- Witness for C3: calling with an empty frontier list on a concrete
one-room table yields an error and leaves the table untouched. -/
theorem setLatestEvents_validates_witness :
    (∃ msg, (SetLatestEvents (fun _ => ⟨[9], 3, 2⟩) 1 [] 5 7).1 = Except.error msg) ∧
      (SetLatestEvents (fun _ => ⟨[9], 3, 2⟩) 1 [] 5 7).2 = (fun _ => ⟨[9], 3, 2⟩) :=
  (setLatestEvents_validates (fun _ => ⟨[9], 3, 2⟩) 1 [] 5 7).1 (Or.inl rfl)

/-! ### Topology table (syncapi/storage, sqlite3 output room events topology)

`syncapi_output_room_events_topology` has PRIMARY KEY `event_id` and
UNIQUE `(topological_position, room_id, stream_position)`.
`InsertEventInTopology` inserts with `ON CONFLICT DO NOTHING` and
returns the event's depth; `SelectEventIDsInRange` filters by room and
depth/stream window, orders by `(topological_position, stream_position)`
ascending or descending, and applies the LIMIT. -/

/-- One row of `syncapi_output_room_events_topology`. -/
structure TopoRow where
  eventID : String
  topoPos : Int
  streamPos : Int
  roomID : String
deriving DecidableEq

/-- The type `types.TopologyToken`, the pair scanned per returned row. -/
structure TopologyToken where
  depth : Int
  pduPosition : Int
deriving DecidableEq

/-- The fields of a `HeaderedEvent` read by the topology statements. -/
structure SyncEvent where
  eventID : String
  depth : Int
  roomID : String
deriving DecidableEq

/-- Result of `InsertEventInTopology`: the table after the statement,
the returned position and the returned error. -/
structure TopoInsertResult where
  table : List TopoRow
  returnedPos : Int
  err : Option String
deriving DecidableEq

/-- The statement `insertEventInTopologySQL` with `ON CONFLICT DO NOTHING`: a row
whose event ID or whose (topological position, room, stream position)
triple is already present inserts nothing; the Go function returns the
event's depth in either case. -/
def insertEventInTopology (tbl : List TopoRow) (event : SyncEvent) (pos : Int) :
    TopoInsertResult :=
  let row : TopoRow := ⟨event.eventID, event.depth, pos, event.roomID⟩
  let conflict := tbl.any (fun r =>
    decide (r.eventID = event.eventID ∨
      (r.topoPos = event.depth ∧ r.roomID = event.roomID ∧ r.streamPos = pos)))
  ⟨if conflict then tbl else tbl ++ [row], event.depth, none⟩

/-- The WHERE clause of `selectEventIDsInRangeASCSQL`: parameters are
`(roomID, minDepth, maxDepth, maxDepth, maxStreamPos)`. -/
def rangeFilterASC (roomID : String) (minD maxD maxS : Int) (r : TopoRow) : Bool :=
  decide (r.roomID = roomID ∧
    ((minD < r.topoPos ∧ r.topoPos < maxD) ∨ (r.topoPos = maxD ∧ maxS ≤ r.streamPos)))

/-- The WHERE clause of `selectEventIDsInRangeDESCSQL`. -/
def rangeFilterDESC (roomID : String) (minD maxD maxS : Int) (r : TopoRow) : Bool :=
  decide (r.roomID = roomID ∧
    ((minD < r.topoPos ∧ r.topoPos < maxD) ∨ (r.topoPos = maxD ∧ r.streamPos ≤ maxS)))

/-- The relation of `ORDER BY topological_position ASC, stream_position ASC`. -/
def topoAscLe (a b : TopoRow) : Prop :=
  a.topoPos < b.topoPos ∨ (a.topoPos = b.topoPos ∧ a.streamPos ≤ b.streamPos)

/-- The relation of `ORDER BY topological_position DESC, stream_position DESC`. -/
def topoDescLe (a b : TopoRow) : Prop :=
  b.topoPos < a.topoPos ∨ (a.topoPos = b.topoPos ∧ b.streamPos ≤ a.streamPos)

instance : DecidableRel topoAscLe := fun a b => by
  unfold topoAscLe
  infer_instance

instance : DecidableRel topoDescLe := fun a b => by
  unfold topoDescLe
  infer_instance

instance : IsTotal TopoRow topoAscLe := by
  constructor
  intro a b
  unfold topoAscLe
  omega

instance : IsTrans TopoRow topoAscLe := by
  constructor
  intro a b c hab hbc
  unfold topoAscLe at *
  omega

instance : IsTotal TopoRow topoDescLe := by
  constructor
  intro a b
  unfold topoDescLe
  omega

instance : IsTrans TopoRow topoDescLe := by
  constructor
  intro a b c hab hbc
  unfold topoDescLe at *
  omega

/-- The rows produced by the range query: WHERE filter, ORDER BY, then
LIMIT, ascending when `chronologicalOrder` and descending otherwise. -/
def selectRowsInRange (tbl : List TopoRow) (roomID : String) (minD maxD maxS : Int)
    (limit : Nat) (chronologicalOrder : Bool) : List TopoRow :=
  if chronologicalOrder then
    (List.insertionSort topoAscLe (tbl.filter (rangeFilterASC roomID minD maxD maxS))).take limit
  else
    (List.insertionSort topoDescLe (tbl.filter (rangeFilterDESC roomID minD maxD maxS))).take limit

/-- Result of `SelectEventIDsInRange`: the scanned event IDs, the
start/end topology tokens and the returned error. -/
structure RangeQueryResult where
  eventIDs : GoSlice String
  start : TopologyToken
  finish : TopologyToken
  err : Option String

/-- The method `SelectEventIDsInRange`: run the range query, append each scanned
event ID to the (initially nil) slice, and take the first and last
scanned tokens, which stay zero-valued when nothing was scanned. -/
def SelectEventIDsInRange (tbl : List TopoRow) (roomID : String) (minD maxD maxS : Int)
    (limit : Nat) (chronologicalOrder : Bool) : RangeQueryResult :=
  let rows := selectRowsInRange tbl roomID minD maxD maxS limit chronologicalOrder
  let tokens := rows.map (fun r => (⟨r.topoPos, r.streamPos⟩ : TopologyToken))
  ⟨GoSlice.nilSlice.pushAll (rows.map (fun r => r.eventID)),
    tokens.headD ⟨0, 0⟩, tokens.getLastD ⟨0, 0⟩, none⟩

theorem selectRowsInRange_asc_pairwise (tbl : List TopoRow) (roomID : String)
    (minD maxD maxS : Int) (limit : Nat) :
    List.Pairwise topoAscLe (selectRowsInRange tbl roomID minD maxD maxS limit true) := by
  unfold selectRowsInRange
  simp only [if_pos]
  exact List.Pairwise.sublist (List.take_sublist _ _) (List.sorted_insertionSort _ _)

theorem selectRowsInRange_desc_pairwise (tbl : List TopoRow) (roomID : String)
    (minD maxD maxS : Int) (limit : Nat) :
    List.Pairwise topoDescLe (selectRowsInRange tbl roomID minD maxD maxS limit false) := by
  unfold selectRowsInRange
  simp only [Bool.false_eq_true, if_false]
  exact List.Pairwise.sublist (List.take_sublist _ _) (List.sorted_insertionSort _ _)

theorem pairwise_asc_get (rows : List TopoRow) (h : List.Pairwise topoAscLe rows)
    (i j : Nat) (hi : i < rows.length) (hj : j < rows.length) :
    ((rows.get ⟨i, hi⟩).topoPos < (rows.get ⟨j, hj⟩).topoPos → i < j) ∧
      ((rows.get ⟨i, hi⟩).topoPos = (rows.get ⟨j, hj⟩).topoPos →
        (rows.get ⟨i, hi⟩).streamPos < (rows.get ⟨j, hj⟩).streamPos → i < j) := by
  constructor
  · intro hlt
    by_contra hij
    rcases (by omega : j < i ∨ j = i) with hji | rfl
    · have hr := List.pairwise_iff_get.mp h ⟨j, hj⟩ ⟨i, hi⟩ (Fin.mk_lt_mk.mpr hji)
      unfold topoAscLe at hr
      omega
    · omega
  · intro heq hslt
    by_contra hij
    rcases (by omega : j < i ∨ j = i) with hji | rfl
    · have hr := List.pairwise_iff_get.mp h ⟨j, hj⟩ ⟨i, hi⟩ (Fin.mk_lt_mk.mpr hji)
      unfold topoAscLe at hr
      omega
    · omega

theorem pairwise_desc_get (rows : List TopoRow) (h : List.Pairwise topoDescLe rows)
    (i j : Nat) (hi : i < rows.length) (hj : j < rows.length) :
    ((rows.get ⟨i, hi⟩).topoPos < (rows.get ⟨j, hj⟩).topoPos → j < i) ∧
      ((rows.get ⟨i, hi⟩).topoPos = (rows.get ⟨j, hj⟩).topoPos →
        (rows.get ⟨i, hi⟩).streamPos < (rows.get ⟨j, hj⟩).streamPos → j < i) := by
  constructor
  · intro hlt
    by_contra hij
    rcases (by omega : i < j ∨ i = j) with hij' | rfl
    · have hr := List.pairwise_iff_get.mp h ⟨i, hi⟩ ⟨j, hj⟩ (Fin.mk_lt_mk.mpr hij')
      unfold topoDescLe at hr
      omega
    · omega
  · intro heq hslt
    by_contra hij
    rcases (by omega : i < j ∨ i = j) with hij' | rfl
    · have hr := List.pairwise_iff_get.mp h ⟨i, hi⟩ ⟨j, hj⟩ (Fin.mk_lt_mk.mpr hij')
      unfold topoDescLe at hr
      omega
    · omega

theorem selectRowsInRange_length_le (tbl : List TopoRow) (roomID : String)
    (minD maxD maxS : Int) (limit : Nat) (chrono : Bool) :
    (selectRowsInRange tbl roomID minD maxD maxS limit chrono).length ≤ limit := by
  unfold selectRowsInRange
  cases chrono <;> simp [List.length_take]

theorem selectEventIDsInRange_ids (tbl : List TopoRow) (roomID : String)
    (minD maxD maxS : Int) (limit : Nat) (chrono : Bool) :
    (SelectEventIDsInRange tbl roomID minD maxD maxS limit chrono).eventIDs.toList =
      (selectRowsInRange tbl roomID minD maxD maxS limit chrono).map
        (fun r => r.eventID) := by
  show (GoSlice.pushAll GoSlice.nilSlice _).toList = _
  rw [GoSlice.pushAll_toList]
  rfl

/-- C4: the range query returns at most `limit` events; the event
IDs returned by `SelectEventIDsInRange` are exactly those of the
filtered, ordered, limited rows; in chronological (ascending) order a
strictly lower depth comes strictly earlier and, at equal depth, a
strictly lower stream position comes strictly earlier; in the
non-chronological (descending) order both comparisons are reversed. -/
theorem selectEventIDsInRange_topology_order (tbl : List TopoRow) (roomID : String)
    (minD maxD maxS : Int) (limit : Nat) :
    (selectRowsInRange tbl roomID minD maxD maxS limit true).length ≤ limit ∧
    (selectRowsInRange tbl roomID minD maxD maxS limit false).length ≤ limit ∧
    ((SelectEventIDsInRange tbl roomID minD maxD maxS limit true).eventIDs.toList =
      (selectRowsInRange tbl roomID minD maxD maxS limit true).map (fun r => r.eventID)) ∧
    ((SelectEventIDsInRange tbl roomID minD maxD maxS limit false).eventIDs.toList =
      (selectRowsInRange tbl roomID minD maxD maxS limit false).map (fun r => r.eventID)) ∧
    (∀ i j
      (hi : i < (selectRowsInRange tbl roomID minD maxD maxS limit true).length)
      (hj : j < (selectRowsInRange tbl roomID minD maxD maxS limit true).length),
      (((selectRowsInRange tbl roomID minD maxD maxS limit true).get ⟨i, hi⟩).topoPos <
          ((selectRowsInRange tbl roomID minD maxD maxS limit true).get ⟨j, hj⟩).topoPos →
        i < j) ∧
      (((selectRowsInRange tbl roomID minD maxD maxS limit true).get ⟨i, hi⟩).topoPos =
          ((selectRowsInRange tbl roomID minD maxD maxS limit true).get ⟨j, hj⟩).topoPos →
        ((selectRowsInRange tbl roomID minD maxD maxS limit true).get ⟨i, hi⟩).streamPos <
          ((selectRowsInRange tbl roomID minD maxD maxS limit true).get ⟨j, hj⟩).streamPos →
        i < j)) ∧
    (∀ i j
      (hi : i < (selectRowsInRange tbl roomID minD maxD maxS limit false).length)
      (hj : j < (selectRowsInRange tbl roomID minD maxD maxS limit false).length),
      (((selectRowsInRange tbl roomID minD maxD maxS limit false).get ⟨i, hi⟩).topoPos <
          ((selectRowsInRange tbl roomID minD maxD maxS limit false).get ⟨j, hj⟩).topoPos →
        j < i) ∧
      (((selectRowsInRange tbl roomID minD maxD maxS limit false).get ⟨i, hi⟩).topoPos =
          ((selectRowsInRange tbl roomID minD maxD maxS limit false).get ⟨j, hj⟩).topoPos →
        ((selectRowsInRange tbl roomID minD maxD maxS limit false).get ⟨i, hi⟩).streamPos <
          ((selectRowsInRange tbl roomID minD maxD maxS limit false).get ⟨j, hj⟩).streamPos →
        j < i)) :=
  ⟨selectRowsInRange_length_le tbl roomID minD maxD maxS limit true,
    selectRowsInRange_length_le tbl roomID minD maxD maxS limit false,
    selectEventIDsInRange_ids tbl roomID minD maxD maxS limit true,
    selectEventIDsInRange_ids tbl roomID minD maxD maxS limit false,
    fun i j hi hj => pairwise_asc_get _
      (selectRowsInRange_asc_pairwise tbl roomID minD maxD maxS limit) i j hi hj,
    fun i j hi hj => pairwise_desc_get _
      (selectRowsInRange_desc_pairwise tbl roomID minD maxD maxS limit) i j hi hj⟩

/-- Witness for C4 on a concrete two-event room: at most `limit` rows
come back, and the depth-1 event precedes the depth-2 event in
chronological order. -/
theorem selectEventIDsInRange_topology_order_witness :
    (selectRowsInRange [⟨"$a", 1, 10, "!r"⟩, ⟨"$b", 2, 11, "!r"⟩]
        "!r" 0 10 0 10 true).length ≤ 10 ∧ (0 : Nat) < 1 :=
  ⟨(selectEventIDsInRange_topology_order
      [⟨"$a", 1, 10, "!r"⟩, ⟨"$b", 2, 11, "!r"⟩] "!r" 0 10 0 10).1,
    ((selectEventIDsInRange_topology_order
        [⟨"$a", 1, 10, "!r"⟩, ⟨"$b", 2, 11, "!r"⟩] "!r" 0 10 0 10).2.2.2.2.1
      0 1 (by decide) (by decide)).1 (by decide)⟩

/-- C5: `InsertEventInTopology` is idempotent: when a row with the
same event ID, or with the same (topological position, room, stream
position) triple, is already present, the insert leaves the table
unchanged; it never errors, and it always returns the event's depth as
the topological position. -/
theorem insertEventInTopology_idempotent (tbl : List TopoRow) (event : SyncEvent)
    (pos : Int) :
    ((insertEventInTopology tbl event pos).returnedPos = event.depth) ∧
    ((insertEventInTopology tbl event pos).err = none) ∧
    ((∃ r ∈ tbl, r.eventID = event.eventID ∨
        (r.topoPos = event.depth ∧ r.roomID = event.roomID ∧ r.streamPos = pos)) →
      (insertEventInTopology tbl event pos).table = tbl) := by
  refine ⟨rfl, rfl, ?_⟩
  intro hex
  have hconf : tbl.any (fun r =>
      decide (r.eventID = event.eventID ∨
        (r.topoPos = event.depth ∧ r.roomID = event.roomID ∧ r.streamPos = pos))) = true := by
    rw [List.any_eq_true]
    obtain ⟨r, hr, hp⟩ := hex
    exact ⟨r, hr, decide_eq_true hp⟩
  show (if _ then tbl else _) = tbl
  rw [hconf]
  simp

/-- Witness for C5: re-delivering the event `$a` (already present with
the same triple) changes nothing and returns its depth. -/
theorem insertEventInTopology_idempotent_witness :
    (insertEventInTopology [⟨"$a", 1, 10, "!r"⟩] ⟨"$a", 1, "!r"⟩ 10).table =
      [⟨"$a", 1, 10, "!r"⟩] :=
  (insertEventInTopology_idempotent [⟨"$a", 1, 10, "!r"⟩] ⟨"$a", 1, "!r"⟩ 10).2.2
    (by decide)

/-- C6, counterexample to the claim as stated: on a concrete table
whose only event lies in another room, the range query returns the nil
slice, which is not the allocated empty `[]string` slice: the Go
`sql.ErrNoRows` branch that would return `[]string\x7b\x7d` is
unreachable after `QueryContext`, so the named return `eventIDs` stays
nil when the loop scans no row. -/
theorem selectEventIDsInRange_nil_not_empty_slice :
    (SelectEventIDsInRange [⟨"$e", 50, 1, "!other"⟩] "!room" 0 10 100 5 true).eventIDs =
        GoSlice.nilSlice ∧
      (GoSlice.nilSlice : GoSlice String) ≠ GoSlice.ofList [] := by
  constructor
  · rfl
  · intro hcontra
    exact Option.noConfusion hcontra

/-- C6, amended: when no event of the room falls inside the
requested range, `SelectEventIDsInRange` returns the nil (zero-length)
event-ID slice, zero-valued start and end tokens, and no error —
absence of a match is never reported as an error. -/
theorem selectEventIDsInRange_empty_result (tbl : List TopoRow) (roomID : String)
    (minD maxD maxS : Int) (limit : Nat) (chrono : Bool)
    (h : ∀ r ∈ tbl, rangeFilterASC roomID minD maxD maxS r = false ∧
      rangeFilterDESC roomID minD maxD maxS r = false) :
    SelectEventIDsInRange tbl roomID minD maxD maxS limit chrono =
      ⟨GoSlice.nilSlice, ⟨0, 0⟩, ⟨0, 0⟩, none⟩ := by
  have hfA : tbl.filter (rangeFilterASC roomID minD maxD maxS) = [] := by
    rw [List.filter_eq_nil_iff]
    intro a ha
    simp [(h a ha).1]
  have hfD : tbl.filter (rangeFilterDESC roomID minD maxD maxS) = [] := by
    rw [List.filter_eq_nil_iff]
    intro a ha
    simp [(h a ha).2]
  have hrows : selectRowsInRange tbl roomID minD maxD maxS limit chrono = [] := by
    unfold selectRowsInRange
    cases chrono
    · simp [hfD, List.insertionSort]
    · simp [hfA, List.insertionSort]
  show (⟨GoSlice.nilSlice.pushAll _, _, _, none⟩ : RangeQueryResult) = _
  rw [hrows]
  rfl

/-- Witness for the amended C6 at the concrete table used in the
counterexample. -/
theorem selectEventIDsInRange_empty_result_witness :
    SelectEventIDsInRange [⟨"$e", 50, 1, "!other"⟩] "!room" 0 10 100 5 true =
      ⟨GoSlice.nilSlice, ⟨0, 0⟩, ⟨0, 0⟩, none⟩ :=
  selectEventIDsInRange_empty_result [⟨"$e", 50, 1, "!other"⟩] "!room" 0 10 100 5 true
    (by decide)

/-! ### Typing stream provider (syncapi/streams/stream_typing.go)

`TypingStreamProvider.IncrementalSync` walks the request's room
memberships, appends an `m.typing` ephemeral event for each joined room
whose typing data changed after `from`, and returns `to`;
`CompleteSync` is `IncrementalSync(0, LatestPosition)`.  The EDU cache
is passed as the function answering `GetTypingUsersIfUpdatedAfter`.
`json.Marshal` of a map holding one `[]string` value can never fail in
Go, so its embedding always returns `Except.ok`; the `return from`
branch guarding a marshal error is kept, and proved unreachable. -/

/-- A reduced `synctypes.ClientEvent` with to the fields set here. -/
structure ClientEvent where
  evType : String
  content : String
deriving DecidableEq

/-- A reduced `types.JoinResponse` with to its ephemeral event list. -/
structure JoinResponse where
  ephemeralEvents : List ClientEvent
deriving DecidableEq

/-- The sync request state read and written by the typing provider:
room memberships, the ignored-user list, and the join section of the
response under construction. -/
structure SyncRequest where
  rooms : List (String × String)
  ignoredUsers : List String
  responseJoin : List (String × JoinResponse)
deriving DecidableEq

/-- Lookup of `req.Response.Rooms.Join[roomID]`, defaulting to
`types.NewJoinResponse()` when absent. -/
def lookupJoin (m : List (String × JoinResponse)) (roomID : String) : JoinResponse :=
  match m.find? (fun p => p.1 == roomID) with
  | some p => p.2
  | none => ⟨[]⟩

/-- Assignment `req.Response.Rooms.Join[roomID] = jr`. -/
def insertJoin (m : List (String × JoinResponse)) (roomID : String) (jr : JoinResponse) :
    List (String × JoinResponse) :=
  if (m.find? (fun p => p.1 == roomID)).isSome then
    m.map (fun p => if p.1 == roomID then (p.1, jr) else p)
  else
    m ++ [(roomID, jr)]

/-- Minimal JSON string escaping; the exact bytes produced are not
load-bearing for any claim, only totality is. -/
def escapeJSONString (s : String) : String :=
  s.foldl (fun acc c =>
    if c = '\"' then acc ++ "\\\"" else if c = '\\' then acc ++ "\\\\" else acc.push c) ""

/-- Embedding of `json.Marshal(map[string]interface\x7b\x7d\x7b"user_ids": typingUsers\x7d)`:
total on this input shape, hence always `Except.ok`. -/
def jsonMarshalUserIDs (users : List String) : Except String String :=
  Except.ok ("\x7b\"user_ids\":[" ++
    String.intercalate "," (users.map (fun u => "\"" ++ escapeJSONString u ++ "\"")) ++
    "]\x7d")

/-- The loop body of `IncrementalSync` over the remaining rooms:
`Except.error` carries the response at an early `return from`,
`Except.ok` the response at the fall-through `return to`. -/
def typingSyncLoop (cache : String → Int → List String × Bool)
    (ignored : List String) (fromPos : Int) :
    List (String × String) → List (String × JoinResponse) →
      Except (List (String × JoinResponse)) (List (String × JoinResponse))
  | [], resp => Except.ok resp
  | (roomID, membership) :: rest, resp =>
    if membership = "join" then
      match cache roomID fromPos with
      | (users, true) =>
        let typingUsers := users.filter (fun u => !(ignored.contains u))
        match jsonMarshalUserIDs typingUsers with
        | Except.error _ => Except.error resp
        | Except.ok content =>
          let jr := lookupJoin resp roomID
          typingSyncLoop cache ignored fromPos rest
            (insertJoin resp roomID ⟨jr.ephemeralEvents ++ [⟨"m.typing", content⟩]⟩)
      | (_, false) => typingSyncLoop cache ignored fromPos rest resp
    else
      typingSyncLoop cache ignored fromPos rest resp

/-- The method `TypingStreamProvider.IncrementalSync`: returns the request with
its updated response, and the stream position the provider reports. -/
def TypingIncrementalSync (cache : String → Int → List String × Bool)
    (req : SyncRequest) (fromPos toPos : Int) : SyncRequest × Int :=
  match typingSyncLoop cache req.ignoredUsers fromPos req.rooms req.responseJoin with
  | Except.ok resp => ({req with responseJoin := resp}, toPos)
  | Except.error resp => ({req with responseJoin := resp}, fromPos)

/-- The method `TypingStreamProvider.CompleteSync`. -/
def TypingCompleteSync (cache : String → Int → List String × Bool)
    (latestPosition : Int) (req : SyncRequest) : SyncRequest × Int :=
  TypingIncrementalSync cache req 0 latestPosition

theorem typingSyncLoop_ok (cache : String → Int → List String × Bool)
    (ignored : List String) (fromPos : Int) :
    ∀ (rooms : List (String × String)) (resp : List (String × JoinResponse)),
      ∃ r, typingSyncLoop cache ignored fromPos rooms resp = Except.ok r := by
  intro rooms
  induction rooms with
  | nil => intro resp; exact ⟨resp, rfl⟩
  | cons hd rest ih =>
      intro resp
      obtain ⟨roomID, membership⟩ := hd
      by_cases hm : membership = "join"
      · cases hc : cache roomID fromPos with
        | mk users updated =>
            cases updated
            · simpa [typingSyncLoop, hm, hc] using ih resp
            · simpa [typingSyncLoop, hm, hc, jsonMarshalUserIDs] using ih _
      · simpa [typingSyncLoop, hm] using ih resp

/-- C7: `IncrementalSync` returns the position `to` for every
request and every pair of positions — in particular when no joined
room's typing data changed — and `CompleteSync` is exactly
`IncrementalSync` from position 0 to the latest position. -/
theorem typing_incrementalSync_returns_to (cache : String → Int → List String × Bool)
    (req : SyncRequest) (fromPos toPos latestPosition : Int) :
    (TypingIncrementalSync cache req fromPos toPos).2 = toPos ∧
      TypingCompleteSync cache latestPosition req =
        TypingIncrementalSync cache req 0 latestPosition := by
  constructor
  · obtain ⟨r, hr⟩ := typingSyncLoop_ok cache req.ignoredUsers fromPos req.rooms req.responseJoin
    simp [TypingIncrementalSync, hr]
  · rfl

/-! ### Client-data consumer (syncapi consumers, OutputClientDataConsumer)

`onMessage` parses the payload as `eventutil.AccountData`; on a parse
failure it logs and acknowledges (returns true).  It then calls
`UpsertAccountData`; on failure it returns false so the message is
redelivered.  On success it optionally updates ignored users (errors
there are only logged), advances the account-data stream and notifies
the notifier, then acknowledges.  The effectful calls appear as
explicit environment results and as an emitted action trace. -/

/-- The type `eventutil.AccountData`, reduced to the fields `onMessage` reads. -/
structure AccountData where
  roomID : String
  dataType : String
  ignoredUsers : Option (List String)
deriving DecidableEq

/-- The externally visible calls `onMessage` makes, in order. -/
inductive ConsumerAction where
  | upsertAccountData (userID roomID dataType : String)
  | updateIgnores (userID : String)
  | advance (pos : Int)
  | notifyAccountData (userID : String) (pos : Int)
deriving DecidableEq

/-- The method `OutputClientDataConsumer.onMessage`: `parsed` is the result of
`json.Unmarshal` on the message payload, `upsertResult` the result of
`UpsertAccountData` (its stream position on success),
`updateIgnoresResult` the result of `UpdateIgnoresForUser`.  Returns
the acknowledgement flag and the action trace. -/
def onMessageClientData (userID : String) (parsed : Except String AccountData)
    (upsertResult : Except String Int) (updateIgnoresResult : Except String Unit) :
    Bool × List ConsumerAction :=
  match parsed with
  | Except.error _ => (true, [])
  | Except.ok output =>
    match upsertResult with
    | Except.error _ =>
        (false, [ConsumerAction.upsertAccountData userID output.roomID output.dataType])
    | Except.ok streamPos =>
        let acts := [ConsumerAction.upsertAccountData userID output.roomID output.dataType]
        let acts := match output.ignoredUsers with
          | some _ => acts ++ [ConsumerAction.updateIgnores userID]
          | none => acts
        (true, acts ++ [ConsumerAction.advance streamPos,
          ConsumerAction.notifyAccountData userID streamPos])

/-- C8: a payload that fails to parse is acknowledged (true) and
dropped with no further effect; a failed `UpsertAccountData` is not
acknowledged (false), causing redelivery; a successful store advances
the account-data stream and notifies the notifier before the message
is acknowledged. -/
theorem onMessageClientData_ack_semantics (userID e : String)
    (output : AccountData) (upsertResult : Except String Int) (streamPos : Int)
    (updateIgnoresResult : Except String Unit) :
    (onMessageClientData userID (Except.error e) upsertResult updateIgnoresResult =
      (true, [])) ∧
    (onMessageClientData userID (Except.ok output) (Except.error e)
        updateIgnoresResult =
      (false, [ConsumerAction.upsertAccountData userID output.roomID output.dataType])) ∧
    ((onMessageClientData userID (Except.ok output) (Except.ok streamPos)
        updateIgnoresResult).1 = true ∧
      ∃ mid, (onMessageClientData userID (Except.ok output) (Except.ok streamPos)
          updateIgnoresResult).2 =
        ConsumerAction.upsertAccountData userID output.roomID output.dataType ::
          (mid ++ [ConsumerAction.advance streamPos,
            ConsumerAction.notifyAccountData userID streamPos])) := by
  refine ⟨rfl, rfl, ?_, ?_⟩
  · cases ho : output.ignoredUsers <;> simp [onMessageClientData, ho]
  · cases ho : output.ignoredUsers
    · exact ⟨[], by simp [onMessageClientData, ho]⟩
    · exact ⟨[ConsumerAction.updateIgnores userID], by simp [onMessageClientData, ho]⟩

/-! ### Key-change consumer (syncapi/consumers/keychange.go)

`onMessage` parses an `api.DeviceMessage`; a parse failure is
acknowledged, a message with neither device keys nor a cross-signing
update is acknowledged, and the two handlers acknowledge both on
`QuerySharedUsers` failure and on success.

Modelled from the spec: the `api.DeviceMessage` declaration
(userapi/api) is not under src/.  From its use in keychange.go it
carries a message type, a nilable embedded `*DeviceKeys`, a nilable
embedded `*OutputCrossSigningKeyUpdate` (whose promoted field
`CrossSigningKeyUpdate` panics when selected through the nil embedded
pointer — Go selector semantics) and `DeviceChangeID`.  A panic is
modelled as `none`; a normal return as `some` of the acknowledgement
and the action trace. -/

/-- The type `api.DeviceKeys`, reduced to the field read here. -/
structure DeviceKeysPayload where
  userID : String
deriving DecidableEq

/-- The type `api.OutputCrossSigningKeyUpdate`, reduced to the field read here. -/
structure CrossSigningPayload where
  userID : String
deriving DecidableEq

/-- The type `api.DeviceMessage`, modelled from its use in keychange.go. -/
structure DeviceMessage where
  msgType : Int
  deviceKeys : Option DeviceKeysPayload
  crossSigningKeyUpdate : Option CrossSigningPayload
  deviceChangeID : Int
deriving DecidableEq

/-- The constant `api.TypeDeviceKeyUpdate`. -/
def TypeDeviceKeyUpdate : Int := 0

/-- The constant `api.TypeCrossSigningUpdate`. -/
def TypeCrossSigningUpdate : Int := 1

/-- The externally visible calls the key-change consumer makes. -/
inductive KeyChangeAction where
  | advance (pos : Int)
  | notifyKeyChange (userID watched : String) (pos : Int)
deriving DecidableEq

/-- Assignment `queryRes.UserIDsToCount[userID] = 1`. -/
def upsertCount (m : List (String × Nat)) (k : String) (v : Nat) : List (String × Nat) :=
  if (m.find? (fun p => p.1 == k)).isSome then
    m.map (fun p => if p.1 == k then (p.1, v) else p)
  else
    m ++ [(k, v)]

/-- The method `OutputKeyChangeEventConsumer.onDeviceKeyMessage`. -/
def onDeviceKeyMessage (m : DeviceMessage) (deviceChangeID : Int)
    (query : Except String (List (String × Nat))) :
    Option (Bool × List KeyChangeAction) :=
  match m.deviceKeys with
  | none => some (true, [])
  | some output =>
    match query with
    | Except.error _ => some (true, [])
    | Except.ok res =>
      let res := upsertCount res output.userID 1
      some (true, KeyChangeAction.advance deviceChangeID ::
        res.map (fun p => KeyChangeAction.notifyKeyChange p.1 output.userID deviceChangeID))

/-- The method `OutputKeyChangeEventConsumer.onCrossSigningMessage`: reading
`m.CrossSigningKeyUpdate` through the nil embedded pointer panics. -/
def onCrossSigningMessage (m : DeviceMessage) (deviceChangeID : Int)
    (query : Except String (List (String × Nat))) :
    Option (Bool × List KeyChangeAction) :=
  match m.crossSigningKeyUpdate with
  | none => none
  | some output =>
    match query with
    | Except.error _ => some (true, [])
    | Except.ok res =>
      let res := upsertCount res output.userID 1
      some (true, KeyChangeAction.advance deviceChangeID ::
        res.map (fun p => KeyChangeAction.notifyKeyChange p.1 output.userID deviceChangeID))

/-- The method `OutputKeyChangeEventConsumer.onMessage`. -/
def onMessageKeyChange (parsed : Except String DeviceMessage)
    (query : Except String (List (String × Nat))) :
    Option (Bool × List KeyChangeAction) :=
  match parsed with
  | Except.error _ => some (true, [])
  | Except.ok m =>
    if m.deviceKeys = none ∧ m.crossSigningKeyUpdate = none then
      some (true, [])
    else if m.msgType = TypeCrossSigningUpdate then
      onCrossSigningMessage m m.deviceChangeID query
    else
      onDeviceKeyMessage m m.deviceChangeID query

/-- C10: the enumerated paths — malformed JSON, a message with
neither payload, a `QuerySharedUsers` failure, and success — all
acknowledge (return true); but a cross-signing-typed message carrying
only device keys passes the guard and panics (no return at all) on the
nil promoted `CrossSigningKeyUpdate` field, so the claim that every
code path returns true fails on the code. -/
theorem onMessageKeyChange_ack_paths :
    (∀ (e : String) (query : Except String (List (String × Nat))),
      onMessageKeyChange (Except.error e) query = some (true, [])) ∧
    (∀ (t id : Int) (query : Except String (List (String × Nat))),
      onMessageKeyChange (Except.ok ⟨t, none, none, id⟩) query = some (true, [])) ∧
    (∀ (dk : DeviceKeysPayload) (id : Int) (e : String),
      onMessageKeyChange (Except.ok ⟨TypeDeviceKeyUpdate, some dk, none, id⟩)
        (Except.error e) = some (true, [])) ∧
    (∀ (dk : DeviceKeysPayload) (id : Int),
      onMessageKeyChange (Except.ok ⟨TypeDeviceKeyUpdate, some dk, none, id⟩)
        (Except.ok []) =
        some (true, [KeyChangeAction.advance id,
          KeyChangeAction.notifyKeyChange dk.userID dk.userID id])) ∧
    onMessageKeyChange
        (Except.ok ⟨TypeCrossSigningUpdate, some ⟨"@alice:example.org"⟩, none, 3⟩)
        (Except.ok []) = none := by
  refine ⟨fun e query => rfl, fun t id query => rfl, fun dk id e => rfl, ?_, rfl⟩
  intro dk id
  rfl

/-- C1: each allocator call returns the previous persisted counter
value plus one (and persists that value); every `next*ID` helper is the
shared increment statement on its stream name; across a run of
successive serialized calls on one stream the returned positions are
strictly increasing and pairwise distinct, so no two callers observe
the same value. -/
theorem increaseStreamID_monotonic (tbl : StreamIDTable) (name : String) :
    ((increaseStreamID tbl name).1 = tbl name + 1 ∧
      (increaseStreamID tbl name).2 name = tbl name + 1) ∧
    (nextPDUID tbl = increaseStreamID tbl "global" ∧
      nextReceiptID tbl = increaseStreamID tbl "receipt" ∧
      nextInviteID tbl = increaseStreamID tbl "invite" ∧
      nextAccountDataID tbl = increaseStreamID tbl "accountdata" ∧
      nextPresenceID tbl = increaseStreamID tbl "presence" ∧
      nextNotificationID tbl = increaseStreamID tbl "notification" ∧
      nextRelationID tbl = increaseStreamID tbl "relation") ∧
    (∀ k : Nat, streamPosAt tbl name k = tbl name + (k + 1)) ∧
    (∀ i j : Nat, i < j → streamPosAt tbl name i < streamPosAt tbl name j) ∧
    (∀ i j : Nat, i ≠ j → streamPosAt tbl name i ≠ streamPosAt tbl name j) := by
  refine ⟨⟨rfl, increaseStreamID_state tbl name⟩, ⟨rfl, rfl, rfl, rfl, rfl, rfl, rfl⟩,
    fun k => streamPosAt_eq name k tbl, ?_, ?_⟩
  · intro i j hij
    rw [streamPosAt_eq, streamPosAt_eq]
    omega
  · intro i j hij
    rw [streamPosAt_eq, streamPosAt_eq]
    omega

/-- Witness for C1: starting from the freshly seeded table (all
counters 0), the first and second successive calls on the stream
`global` return distinct, increasing positions. -/
theorem increaseStreamID_monotonic_witness :
    streamPosAt (fun _ => 0) "global" 0 < streamPosAt (fun _ => 0) "global" 1 ∧
      streamPosAt (fun _ => 0) "global" 0 ≠ streamPosAt (fun _ => 0) "global" 1 :=
  ⟨(increaseStreamID_monotonic (fun _ => 0) "global").2.2.2.1 0 1 (by decide),
    (increaseStreamID_monotonic (fun _ => 0) "global").2.2.2.2 0 1 (by decide)⟩

/-- C9: `truncateAuthAndPrevEvents` truncates the auth list to its
first 10 elements when longer than 10 and the prev list to its first
20 elements when longer than 20, returns each list unchanged
otherwise, and each output is a prefix (an initial `take`) of its
input. -/
theorem truncateAuthAndPrevEvents_spec (auth prev : List String) :
    ((truncateAuthAndPrevEvents auth prev).1 =
      if auth.length > 10 then auth.take 10 else auth) ∧
    ((truncateAuthAndPrevEvents auth prev).2 =
      if prev.length > 20 then prev.take 20 else prev) ∧
    (∃ k, (truncateAuthAndPrevEvents auth prev).1 = auth.take k) ∧
    (∃ k, (truncateAuthAndPrevEvents auth prev).2 = prev.take k) := by
  refine ⟨rfl, rfl, ?_, ?_⟩
  · by_cases h : auth.length > 10
    · exact ⟨10, by simp [truncateAuthAndPrevEvents, h]⟩
    · exact ⟨auth.length, by simp [truncateAuthAndPrevEvents, h, List.take_length]⟩
  · by_cases h : prev.length > 20
    · exact ⟨20, by simp [truncateAuthAndPrevEvents, h]⟩
    · exact ⟨prev.length, by simp [truncateAuthAndPrevEvents, h, List.take_length]⟩
